import Mathlib

/-!
Shallow embedding of `src/generate_graphs.py` (Financial-Accounting-Graphs).

The script parses a semicolon-separated transaction file into parallel
sequences (dates, amounts, balances, descriptions), fits a degree-one
least-squares line to the balance series, selects the largest transactions
with `np.argpartition`, and labels them on a chart.

Numeric values are modelled as rationals: every numeric literal appearing in
the claims is exactly representable as a double, and the comparisons the code
performs on such values coincide with comparisons of the rationals.
-/

open scoped List

namespace FinGraphs

/-- Decimal digits of a character sequence folded into a natural number,
most significant first (the value of a digit string). -/
def digitsToNat (cs : List Char) : ℕ :=
  cs.foldl (fun n c => 10 * n + (c.toNat - 48)) 0

/-- True when the character list is nonempty and consists of decimal digits. -/
def isDigits (cs : List Char) : Bool :=
  !cs.isEmpty && cs.all (fun c => c.isDigit)

/-- Models Python `float(s)` on plain decimal literals: an optional sign,
an integer part and an optional fractional part separated by a single dot,
with at least one digit present.  The value of `a.b` is the exact rational
`(a * 10 ^ |b| + b) / 10 ^ |b|`, built with `mkRat` so that it evaluates by
kernel reduction.  (Exponents, `inf`/`nan` and surrounding whitespace never
occur in this program's inputs and are not modelled.) -/
def pyFloat (s : String) : Option ℚ :=
  let cs := s.data
  let neg : Bool :=
    match cs with
    | c :: _ => c = '-'
    | [] => false
  let body : List Char :=
    match cs with
    | c :: t => if c = '-' ∨ c = '+' then t else c :: t
    | [] => []
  let signed : ℕ → ℤ := fun n => if neg then -(n : ℤ) else (n : ℤ)
  let intPart := body.takeWhile (fun c => c ≠ '.')
  let rest := body.dropWhile (fun c => c ≠ '.')
  match rest with
  | [] =>
    if isDigits intPart then
      some (mkRat (signed (digitsToNat intPart)) 1)
    else none
  | _ :: frac =>
    -- by the `dropWhile` above, `rest` can only start with a dot
    if (intPart.all (fun c => c.isDigit)) && (frac.all (fun c => c.isDigit))
        && (!intPart.isEmpty || !frac.isEmpty) then
      some (mkRat (signed (digitsToNat intPart * 10 ^ frac.length + digitsToNat frac))
        (10 ^ frac.length))
    else none

/-- Models `s.replace(".", "").replace(",", ".")` from the amount/balance
comprehensions: both patterns are single characters, so the two `str.replace`
calls are exactly a filter of every dot followed by a comma-to-dot map. -/
def normalizeNumber (s : String) : String :=
  ⟨(s.data.filter (fun c => c ≠ '.')).map (fun c => if c = ',' then '.' else c)⟩

/-- Models `float(field.replace(".", "").replace(",", "."))`, the numeric-field
parse used for amounts (`row[2]`) and balances (`row[3]`). -/
def parseNumberField (s : String) : Option ℚ :=
  pyFloat (normalizeNumber s)

/-- A calendar date as produced by `datetime.datetime.strptime(s, "%d-%m-%Y")`
(only the fields the script uses). -/
structure DateDMY where
  day : ℕ
  month : ℕ
  year : ℕ
deriving DecidableEq, Repr

/-- Splits a character list on the dash separator (groups between dashes). -/
def splitOnDash : List Char → List (List Char)
  | [] => [[]]
  | c :: t =>
    if c = '-' then [] :: splitOnDash t
    else
      match splitOnDash t with
      | [] => [[c]]
      | g :: gs => (c :: g) :: gs

/-- Gregorian leap-year test, as used by Python `datetime` validation. -/
def isLeapYear (y : ℕ) : Bool :=
  (y % 4 == 0 && y % 100 != 0) || y % 400 == 0

/-- Number of days in a month of a given year (Gregorian calendar). -/
def daysInMonth (m y : ℕ) : ℕ :=
  if m = 2 then (if isLeapYear y then 29 else 28)
  else if m = 4 ∨ m = 6 ∨ m = 9 ∨ m = 11 then 30
  else 31

/-- Models `datetime.datetime.strptime(s, "%d-%m-%Y")`: day and month take one
or two digits, the year exactly four, and the resulting triple must be a valid
proleptic-Gregorian date (Python constructs a `datetime`, which validates). -/
def parseDate (s : String) : Option DateDMY :=
  match splitOnDash s.data with
  | [ds, ms, ys] =>
    if isDigits ds && decide (ds.length ≤ 2) && isDigits ms && decide (ms.length ≤ 2)
        && isDigits ys && decide (ys.length = 4) then
      let d := digitsToNat ds
      let m := digitsToNat ms
      let y := digitsToNat ys
      if 1 ≤ d ∧ 1 ≤ m ∧ m ≤ 12 ∧ 1 ≤ y ∧ d ≤ daysInMonth m y then
        some ⟨d, m, y⟩
      else none
    else none
  | _ => none

/-- Cumulative day count before each month in a non-leap year. -/
def cumDays (m : ℕ) : ℕ :=
  [0, 31, 59, 90, 120, 151, 181, 212, 243, 273, 304, 334].getD (m - 1) 0

/-- Models `matplotlib.dates.date2num` restricted to whole dates: the number of
days from the epoch 1970-01-01 in the proleptic Gregorian calendar (the Rata
Die number of the date minus 719163).  Only differences of ordinals matter to
the claims, so the choice of epoch is immaterial. -/
def toOrdinal (dt : DateDMY) : ℤ :=
  let y := dt.year
  let doy := cumDays dt.month + (if 2 < dt.month ∧ isLeapYear y then 1 else 0) + dt.day
  (365 * (y - 1) + (y - 1) / 4 - (y - 1) / 100 + (y - 1) / 400 + doy : ℤ) - 719163

/-- A selected transaction, the tuple `(amounts[i], descriptions[i], dates[i])`
built by `get_largest_transactions`. -/
abbrev Txn : Type := ℚ × String × DateDMY

/-- The parallel triples `(amounts[i], descriptions[i], dates[i])` for
`i = 0, 1, ...`.  `np.argpartition` permutes positions of the `amounts` array
and the comprehension then reads all three parallel lists at the permuted
positions, so permuting these triples while comparing first components is the
same computation (the call site always passes lists of equal length). -/
def zipTxns (amounts : List ℚ) (descriptions : List String) (dates : List DateDMY) :
    List Txn :=
  amounts.zip (descriptions.zip dates)

/-- Position (0-based) of the first minimum amount in a list of transaction
triples: the inner scan of numpy's selection pass, which replaces its running
minimum only on a strict `<`. -/
def minPosFst : List Txn → ℕ
  | [] => 0
  | a :: t =>
    let q := minPosFst t
    match t[q]? with
    | some x => if x.1 < a.1 then q + 1 else 0
    | none => 0

/-- Swap the elements at positions `0` and `p` of a list (numpy's
`SWAP(v[i], v[minidx])` step, relocated to the head of the current suffix). -/
def swapFront (l : List Txn) (p : ℕ) : List Txn :=
  match p, l with
  | 0, l => l
  | _ + 1, [] => []
  | q + 1, a :: t =>
    match t[q]? with
    | some b => b :: t.set q a
    | none => a :: t

/-- Models the selection pass numpy's `introselect` runs for the small inputs
and small `kth` of this program (`DUMBSELECT` in `npysort`): for each of `k`
rounds, the first minimum of the remaining suffix is swapped to the front of
that suffix.  `np.argpartition(a, kth)` performs `kth + 1` such rounds on
indices of `a`; here the parallel triples are permuted directly (see
`zipTxns`). -/
def dumbselect : ℕ → List Txn → List Txn
  | 0, l => l
  | _ + 1, [] => []
  | k + 1, a :: t =>
    match swapFront (a :: t) (minPosFst (a :: t)) with
    | [] => []
    | b :: r => b :: dumbselect k r

/-- The final `largest_transactions.sort(key=lambda x: x[0], reverse=True)`:
Python's stable descending sort by amount, modelled by insertion sort with the
total preorder `b.1 ≤ a.1` (insertion sort is stable for a total preorder, as
is Python's sort). -/
def sortTxnsDesc (l : List Txn) : List Txn :=
  l.insertionSort (fun a b => b.1 ≤ a.1)

/-- Models `get_largest_transactions(amounts, descriptions, dates, N)`
(the Python default for `N` is 3):

* `np.argpartition(amounts, -N)` with `N > len(amounts)` raises
  `ValueError: kth(=-N) out of bounds`, and with `N = 0` on an empty array
  raises too (`kth = 0` is out of bounds) — both modelled as `none`;
* `indices[-N:]` takes the last `N` positions of the partitioned order for
  `N ≥ 1`, but for `N = 0` the Python slice `[-0:]` is `[0:]`, the whole
  array;
* the selected triples are sorted by amount, descending, and returned
  (`np.copy` of the tuple list preserves the values and is the identity
  here). -/
def get_largest_transactions (amounts : List ℚ) (descriptions : List String)
    (dates : List DateDMY) (N : ℕ) : Option (List Txn) :=
  let n := amounts.length
  let txns := zipTxns amounts descriptions dates
  if N = 0 then
    if n = 0 then none
    else some (sortTxnsDesc (dumbselect 1 txns))
  else if n < N then none
  else some (sortTxnsDesc ((dumbselect (n - N + 1) txns).drop (n - N)))

/-- Maps a partial function over a list, failing as a whole when any element
fails: the behaviour of each list comprehension in `generate_graphs`, where an
`IndexError` or `ValueError` on any row aborts the run. -/
def optMap (f : α → Option β) : List α → Option (List β)
  | [] => some []
  | a :: t =>
    match f a, optMap f t with
    | some b, some bs => some (b :: bs)
    | _, _ => none

/-- The four parallel sequences `generate_graphs` extracts from the rows. -/
structure ParsedFile where
  dates : List DateDMY
  amounts : List ℚ
  balances : List ℚ
  descriptions : List String
deriving DecidableEq, Repr

/-- The parsing step of `generate_graphs`, applied to the rows the `csv`
reader produced: `row[0]` parsed with `strptime("%d-%m-%Y")`, `row[2]` and
`row[3]` parsed as numbers after separator normalization, `row[1]` taken
verbatim.  A missing field (`IndexError`) or a failing parse (`ValueError`)
anywhere makes the whole step fail with no partial result. -/
def parseTransactions (transactions : List (List String)) : Option ParsedFile :=
  match optMap (fun row => row[0]? >>= parseDate) transactions,
      optMap (fun row => row[2]? >>= parseNumberField) transactions,
      optMap (fun row => row[3]? >>= parseNumberField) transactions,
      optMap (fun row => row[1]?) transactions with
  | some ds, some ams, some bls, some dcs => some ⟨ds, ams, bls, dcs⟩
  | _, _, _, _ => none

/-- Sum of a list of rationals. -/
def sumQ (l : List ℚ) : ℚ := l.foldr (fun a b => a + b) 0

/-- The slope of `np.polyfit(xs, ys, 1)`: the first-degree least-squares fit,
written through the normal equations
`slope = (n·Σxy − Σx·Σy) / (n·Σx² − (Σx)²)`.  This is the unique
least-squares solution whenever the denominator is nonzero, i.e. whenever the
`xs` are not all equal; the claims only evaluate it there. -/
def polyfitSlope (xs ys : List ℚ) : ℚ :=
  ((xs.length : ℚ) * sumQ (List.zipWith (fun a b => a * b) xs ys) - sumQ xs * sumQ ys)
    / ((xs.length : ℚ) * sumQ (xs.map (fun a => a * a)) - sumQ xs * sumQ xs)

/-- The label the loop at the bottom of `generate_graphs` attaches to one
selected transaction: `index = amounts.index(transaction[0])` (first occurrence
of the amount value), then the annotation text is placed at
`(dates[index], balances[index])`. -/
structure AnnotPoint where
  description : String
  date : DateDMY
  balance : ℚ
deriving DecidableEq, Repr

/-- Models Python `amounts.index(v)`: the index of the first element equal to
`v`, or a `ValueError` (here `none`) when the value is absent. -/
def pyIndex (l : List ℚ) (v : ℚ) : Option ℕ :=
  match l with
  | [] => none
  | a :: t => if a = v then some 0 else (pyIndex t v).map (fun i => i + 1)

/-- The annotation lookup for every selected transaction.  `list.index` raises
`ValueError` when the value is absent and the subscripts raise `IndexError`
when out of range (neither can happen for lists produced by one parse, but the
failure is modelled faithfully as `none`). -/
def annotPoints (pf : ParsedFile) (lts : List Txn) : Option (List AnnotPoint) :=
  optMap (fun t =>
    match pyIndex pf.amounts t.1 with
    | some i =>
      match pf.dates[i]?, pf.balances[i]? with
      | some d, some b => some ⟨t.2.1, d, b⟩
      | _, _ => none
    | none => none) lts

/-- Everything observable that `generate_graphs` computes before handing the
data to matplotlib: the plotted series, the trend line slope, the selected
largest transactions and the annotation points. -/
structure GraphOutput where
  dates : List DateDMY
  amounts : List ℚ
  balances : List ℚ
  descriptions : List String
  trendSlope : ℚ
  largest : List Txn
  annots : List AnnotPoint
deriving DecidableEq, Repr

/-- Models `generate_graphs(csv_file)` on the list of rows read from the file:
parse all rows, fit the trend line over `date2num(dates)` (an empty series
makes `np.polyfit` raise), select the three largest transactions
(`np.argpartition` raises when there are fewer than three rows), and compute
the annotation points.  Any failure aborts with no output; otherwise the chart
data is returned. -/
def generate_graphs (transactions : List (List String)) : Option GraphOutput :=
  match parseTransactions transactions with
  | none => none
  | some pf =>
    if pf.dates.length = 0 then none
    else
      let xs := pf.dates.map (fun d => ((toOrdinal d : ℤ) : ℚ))
      let slope := polyfitSlope xs pf.balances
      match get_largest_transactions pf.amounts pf.descriptions pf.dates 3 with
      | none => none
      | some lts =>
        match annotPoints pf lts with
        | none => none
        | some ans =>
          some ⟨pf.dates, pf.amounts, pf.balances, pf.descriptions, slope, lts, ans⟩

/-- Models `max(glob.iglob(pattern), key=os.path.getctime)` over the matched
files, each given with its creation time: Python `max` scans the iterable and
replaces its running best only on a strictly greater key, so the first
occurrence of the maximal key wins; on an empty iterable it raises
`ValueError`, modelled as `none`. -/
def maxByCtime : List (String × ℚ) → Option (String × ℚ)
  | [] => none
  | f :: t => some (t.foldl (fun best x => if best.2 < x.2 then x else best) f)

/-- Outcome of the `__main__` block up to the call of `generate_graphs`. -/
inductive MainOutcome where
  /-- `max()` raised `ValueError: max() arg is an empty sequence` (unhandled). -/
  | emptyGlobError : MainOutcome
  /-- the script printed "The file does not exist" and called `sys.exit(1)`. -/
  | fileMissingExit : MainOutcome
  /-- the script reached `generate_graphs(latest_file)`. -/
  | proceed (path : String) : MainOutcome
deriving DecidableEq, Repr

/-- Spec-side notion for the selector contract: the amounts of the file in
descending order (stable sort of the amount values by `≥`). -/
def sortQDesc (l : List ℚ) : List ℚ :=
  l.insertionSort (fun a b => b ≤ a)

/-- Ascending sort of amount values, used to name the k smallest values when
reasoning about the partition pass. -/
def sortQAsc (l : List ℚ) : List ℚ :=
  l.insertionSort (fun a b => a ≤ b)

instance : IsTotal ℚ (fun a b : ℚ => b ≤ a) := ⟨fun a b => le_total b a⟩

instance : IsTrans ℚ (fun a b : ℚ => b ≤ a) := ⟨fun _ _ _ h1 h2 => le_trans h2 h1⟩

instance : IsAntisymm ℚ (fun a b : ℚ => b ≤ a) := ⟨fun _ _ h1 h2 => le_antisymm h2 h1⟩

instance : IsTotal ℚ (fun a b : ℚ => a ≤ b) := ⟨fun a b => le_total a b⟩

instance : IsTrans ℚ (fun a b : ℚ => a ≤ b) := ⟨fun _ _ _ h1 h2 => le_trans h1 h2⟩

instance : IsAntisymm ℚ (fun a b : ℚ => a ≤ b) := ⟨fun _ _ h1 h2 => le_antisymm h1 h2⟩

instance : IsTotal Txn (fun a b : Txn => b.1 ≤ a.1) := ⟨fun a b => le_total b.1 a.1⟩

instance : IsTrans Txn (fun a b : Txn => b.1 ≤ a.1) := ⟨fun _ _ _ h1 h2 => le_trans h2 h1⟩

/-- A row of the input file that the parsing step accepts: the four fields the
script reads exist and parse. -/
def rowWellFormed (row : List String) : Prop :=
  (row[0]? >>= parseDate).isSome ∧ (row[2]? >>= parseNumberField).isSome ∧
    (row[3]? >>= parseNumberField).isSome ∧ (row[1]?).isSome

instance (row : List String) : Decidable (rowWellFormed row) := by
  unfold rowWellFormed; infer_instance

/-- Models the `__main__` block: pick the newest match of
`~/Downloads/eksport*.csv`; only then check `os.path.isfile` on the selected
path, printing the message and exiting with status 1 when that check fails. -/
def mainSelect (found : List (String × ℚ)) (isfile : String → Bool) : MainOutcome :=
  match maxByCtime found with
  | none => MainOutcome.emptyGlobError
  | some f => if isfile f.1 then MainOutcome.proceed f.1 else MainOutcome.fileMissingExit

/-- The three example rows from the header comment of the script, newest
first: balances 100, 99, 98 over three consecutive days. -/
def exRows3 : List (List String) :=
  [["05-06-2020", "Test", "1,00", "100,00", "DKK", ""],
    ["04-06-2020", "Test", "1,00", "99,00", "DKK", ""],
    ["03-06-2020", "Test", "1,00", "98,00", "DKK", ""]]

/-- A well-formed row with seven fields; the documented format has six. -/
def exRow7 : List String :=
  ["01-01-2020", "Test", "1,00", "100,00", "DKK", "", "EXTRA"]

theorem optMap_length (f : α → Option β) :
    ∀ {l : List α} {l2 : List β}, optMap f l = some l2 → l2.length = l.length := by
  intro l
  induction l with
  | nil =>
    intro l2 h
    simp only [optMap, Option.some.injEq] at h
    subst h
    rfl
  | cons a t ih =>
    intro l2 h
    simp only [optMap] at h
    cases hfa : f a <;> rw [hfa] at h
    · exact absurd h (by simp)
    · cases hft : optMap f t <;> rw [hft] at h
      · exact absurd h (by simp)
      · simp only [Option.some.injEq] at h
        subst h
        simp [ih hft]

theorem optMap_get (f : α → Option β) :
    ∀ {l : List α} {l2 : List β}, optMap f l = some l2 →
      ∀ i : ℕ, l2[i]? = l[i]? >>= f := by
  intro l
  induction l with
  | nil =>
    intro l2 h i
    simp only [optMap, Option.some.injEq] at h
    subst h
    simp
  | cons a t ih =>
    intro l2 h i
    simp only [optMap] at h
    cases hfa : f a <;> rw [hfa] at h
    · exact absurd h (by simp)
    · cases hft : optMap f t <;> rw [hft] at h
      · exact absurd h (by simp)
      · simp only [Option.some.injEq] at h
        subst h
        cases i with
        | zero => simp [hfa]
        | succ j => simpa using ih hft j

theorem optMap_isSome (f : α → Option β) :
    ∀ {l : List α}, (∀ a ∈ l, (f a).isSome) → ∃ l2, optMap f l = some l2 := by
  intro l
  induction l with
  | nil => exact fun _ => ⟨[], rfl⟩
  | cons a t ih =>
    intro h
    obtain ⟨b, hb⟩ := Option.isSome_iff_exists.mp (h a (by simp))
    obtain ⟨bs, hbs⟩ := ih (fun x hx => h x (by simp [hx]))
    exact ⟨b :: bs, by simp [optMap, hb, hbs]⟩

theorem optMap_eq_none (f : α → Option β) {l : List α} {a : α}
    (ha : a ∈ l) (hfa : f a = none) : optMap f l = none := by
  induction l with
  | nil => cases ha
  | cons x t ih =>
    rcases List.mem_cons.mp ha with h | h
    · subst h
      simp [optMap, hfa]
    · cases hfx : f x
      · simp [optMap, hfx]
      · simp [optMap, hfx, ih h]

theorem parseTransactions_lengths {rows : List (List String)} {pf : ParsedFile}
    (h : parseTransactions rows = some pf) :
    pf.dates.length = rows.length ∧ pf.amounts.length = rows.length ∧
      pf.balances.length = rows.length ∧ pf.descriptions.length = rows.length := by
  unfold parseTransactions at h
  cases h1 : optMap (fun row => row[0]? >>= parseDate) rows <;> rw [h1] at h
  · exact absurd h (by simp)
  cases h2 : optMap (fun row => row[2]? >>= parseNumberField) rows <;> rw [h2] at h
  · exact absurd h (by simp)
  cases h3 : optMap (fun row => row[3]? >>= parseNumberField) rows <;> rw [h3] at h
  · exact absurd h (by simp)
  cases h4 : optMap (fun row => row[1]?) rows <;> rw [h4] at h
  · exact absurd h (by simp)
  simp only [Option.some.injEq] at h
  subst h
  exact ⟨optMap_length _ h1, optMap_length _ h2, optMap_length _ h3, optMap_length _ h4⟩

theorem glt_eq_none_of_short {ams : List ℚ} {dcs : List String} {dts : List DateDMY}
    {N : ℕ} (h : ams.length < N) :
    get_largest_transactions ams dcs dts N = none := by
  have hN : N ≠ 0 := by omega
  simp [get_largest_transactions, hN, h]

theorem maxByCtime_foldl_spec (step : String × ℚ → String × ℚ → String × ℚ)
    (hstep : step = fun best x => if best.2 < x.2 then x else best) :
    ∀ (t : List (String × ℚ)) (f : String × ℚ),
      (t.foldl step f) ∈ f :: t ∧ f.2 ≤ (t.foldl step f).2 ∧
        ∀ g ∈ t, g.2 ≤ (t.foldl step f).2 := by
  intro t
  induction t with
  | nil => intro f; refine ⟨by simp, le_refl _, by simp⟩
  | cons x t2 ih =>
    intro f
    have hx : (x :: t2).foldl step f = t2.foldl step (step f x) := by simp
    obtain ⟨hmem, hle, hall⟩ := ih (step f x)
    have hfx : f.2 ≤ (step f x).2 ∧ x.2 ≤ (step f x).2 := by
      rw [hstep]
      by_cases hc : f.2 < x.2
      · simp [hc, le_of_lt hc]
      · simp [hc, le_of_not_lt hc]
    have hmem2 : step f x = f ∨ step f x = x := by
      rw [hstep]
      by_cases hc : f.2 < x.2 <;> simp [hc]
    refine ⟨?_, ?_, ?_⟩
    · rw [hx]
      rcases List.mem_cons.mp hmem with h | h
      · rw [h]
        rcases hmem2 with h2 | h2 <;> simp [h2]
      · simp [h]
    · rw [hx]
      exact le_trans hfx.1 hle
    · intro g hg
      rw [hx]
      rcases List.mem_cons.mp hg with h | h
      · subst h
        exact le_trans hfx.2 hle
      · exact hall g h

/-- C2: when no file matches `~/Downloads/eksport*.csv`, the `__main__` block
raises `ValueError` from `max()` on the empty glob iterator before the
existence check is ever reached, so the script does not print "The file does
not exist" and does not call `sys.exit(1)` — it dies with an unhandled
exception instead. -/
theorem claim_C2_empty_glob_raises :
    mainSelect [] (fun _ => false) = MainOutcome.emptyGlobError ∧
      MainOutcome.emptyGlobError ≠ MainOutcome.fileMissingExit :=
  ⟨rfl, by decide⟩

/-- C3 counterexample: a row with seven fields (documented format: six) whose
first four fields are well formed is accepted by the parsing step, so a wrong
field count alone is not a fatal error. -/
theorem claim_C3_cex :
    exRow7.length = 7 ∧
      parseTransactions [exRow7] = some ⟨[⟨1, 1, 2020⟩], [1], [100], ["Test"]⟩ :=
  ⟨by decide, by decide⟩

/-- C3 amended: a row on which any of the four reads the script performs
fails — missing field 0/1/2/3 (`IndexError`) or an unparsable date, amount or
balance (`ValueError`) — makes the whole parsing step fail with no partial
result; but a row with extra fields whose fields 0–3 are well formed is
accepted, so a divergent field count as such is fatal only when fewer than
four fields remain. -/
theorem claim_C3_malformed_rows_fatal :
    (∀ (rows : List (List String)) (r : List String), r ∈ rows → ¬ rowWellFormed r →
        parseTransactions rows = none) ∧
      parseTransactions [exRow7] = some ⟨[⟨1, 1, 2020⟩], [1], [100], ["Test"]⟩ := by
  constructor
  · intro rows r hr hwf
    unfold parseTransactions
    by_cases h1 : (r[0]? >>= parseDate).isSome
    case neg =>
      have hn : r[0]? >>= parseDate = none := Option.not_isSome_iff_eq_none.mp h1
      rw [optMap_eq_none (fun row => row[0]? >>= parseDate) hr hn]
    case pos =>
      by_cases h2 : (r[2]? >>= parseNumberField).isSome
      case neg =>
        have hn : r[2]? >>= parseNumberField = none := Option.not_isSome_iff_eq_none.mp h2
        rw [optMap_eq_none (fun row => row[2]? >>= parseNumberField) hr hn]
        cases optMap (fun row => row[0]? >>= parseDate) rows <;> rfl
      case pos =>
        by_cases h3 : (r[3]? >>= parseNumberField).isSome
        case neg =>
          have hn : r[3]? >>= parseNumberField = none := Option.not_isSome_iff_eq_none.mp h3
          rw [optMap_eq_none (fun row => row[3]? >>= parseNumberField) hr hn]
          cases optMap (fun row => row[0]? >>= parseDate) rows <;>
            cases optMap (fun row => row[2]? >>= parseNumberField) rows <;> rfl
        case pos =>
          by_cases h4 : (r[1]?).isSome
          case neg =>
            have hn : r[1]? = none := Option.not_isSome_iff_eq_none.mp h4
            rw [optMap_eq_none (fun row => row[1]?) hr hn]
            cases optMap (fun row => row[0]? >>= parseDate) rows <;>
              cases optMap (fun row => row[2]? >>= parseNumberField) rows <;>
                cases optMap (fun row => row[3]? >>= parseNumberField) rows <;> rfl
          case pos =>
            exact absurd ⟨h1, h2, h3, h4⟩ hwf
  · decide

/-- C3 witness: the general part applied to a one-row file whose row has a
malformed amount field. -/
theorem claim_C3_malformed_rows_fatal_witness :
    parseTransactions [["05-06-2020", "Test", "abc", "100,00", "DKK", ""]] = none :=
  claim_C3_malformed_rows_fatal.1 _ ["05-06-2020", "Test", "abc", "100,00", "DKK", ""]
    (by simp) (by decide)

/-- C7: on a file all of whose rows are well formed, parsing succeeds, the
four parsed sequences all have exactly one entry per row, and the entry at
every index `i` is the parse of the corresponding field of row `i` (row order
preserved). -/
theorem claim_C7_parse_preserves_rows :
    ∀ rows : List (List String), (∀ r ∈ rows, rowWellFormed r) →
      ∃ pf, parseTransactions rows = some pf ∧
        pf.dates.length = rows.length ∧ pf.amounts.length = rows.length ∧
        pf.balances.length = rows.length ∧ pf.descriptions.length = rows.length ∧
        ∀ i : ℕ,
          pf.dates[i]? = (rows[i]? >>= fun r => r[0]? >>= parseDate) ∧
          pf.amounts[i]? = (rows[i]? >>= fun r => r[2]? >>= parseNumberField) ∧
          pf.balances[i]? = (rows[i]? >>= fun r => r[3]? >>= parseNumberField) ∧
          pf.descriptions[i]? = (rows[i]? >>= fun r => r[1]?) := by
  intro rows hwf
  obtain ⟨ds, h1⟩ :=
    optMap_isSome (fun r => r[0]? >>= parseDate) (fun r hr => (hwf r hr).1)
  obtain ⟨ams, h2⟩ :=
    optMap_isSome (fun r => r[2]? >>= parseNumberField) (fun r hr => (hwf r hr).2.1)
  obtain ⟨bls, h3⟩ :=
    optMap_isSome (fun r => r[3]? >>= parseNumberField) (fun r hr => (hwf r hr).2.2.1)
  obtain ⟨dcs, h4⟩ :=
    optMap_isSome (fun r => r[1]?) (fun r hr => (hwf r hr).2.2.2)
  refine ⟨⟨ds, ams, bls, dcs⟩, ?_, optMap_length _ h1, optMap_length _ h2,
    optMap_length _ h3, optMap_length _ h4, fun i => ⟨optMap_get _ h1 i, optMap_get _ h2 i,
      optMap_get _ h3 i, optMap_get _ h4 i⟩⟩
  unfold parseTransactions
  rw [h1, h2, h3, h4]

/-- C7 witness: the parse property instantiated on the first example row of
the script's header comment. -/
theorem claim_C7_parse_preserves_rows_witness :
    ∃ pf, parseTransactions [["05-06-2020", "Test", "1,00", "100,00", "DKK", ""]] = some pf ∧
      pf.dates.length = [["05-06-2020", "Test", "1,00", "100,00", "DKK", ""]].length ∧
      pf.amounts.length = [["05-06-2020", "Test", "1,00", "100,00", "DKK", ""]].length ∧
      pf.balances.length = [["05-06-2020", "Test", "1,00", "100,00", "DKK", ""]].length ∧
      pf.descriptions.length = [["05-06-2020", "Test", "1,00", "100,00", "DKK", ""]].length ∧
      ∀ i : ℕ,
        pf.dates[i]?
          = ([["05-06-2020", "Test", "1,00", "100,00", "DKK", ""]][i]? >>=
              fun r => r[0]? >>= parseDate) ∧
        pf.amounts[i]?
          = ([["05-06-2020", "Test", "1,00", "100,00", "DKK", ""]][i]? >>=
              fun r => r[2]? >>= parseNumberField) ∧
        pf.balances[i]?
          = ([["05-06-2020", "Test", "1,00", "100,00", "DKK", ""]][i]? >>=
              fun r => r[3]? >>= parseNumberField) ∧
        pf.descriptions[i]?
          = ([["05-06-2020", "Test", "1,00", "100,00", "DKK", ""]][i]? >>=
              fun r => r[1]?) :=
  claim_C7_parse_preserves_rows _ (by decide)

/-- C8: the file locator returns a matched file with maximal creation time
whenever any file matches (with the first maximal one winning ties, as Python
`max` keeps its running best on non-strict comparisons), and on files with
creation times 1 < 2 < 3 it picks the time-3 file even though its name is
lexically smallest. -/
theorem claim_C8_newest_match_selected :
    (∀ fs : List (String × ℚ), fs ≠ [] →
        ∃ f, maxByCtime fs = some f ∧ f ∈ fs ∧ ∀ g ∈ fs, g.2 ≤ f.2) ∧
      maxByCtime [("c.csv", 1), ("b.csv", 2), ("a.csv", 3)] = some ("a.csv", 3) ∧
      mainSelect [("c.csv", 1), ("b.csv", 2), ("a.csv", 3)] (fun _ => true)
        = MainOutcome.proceed "a.csv" := by
  refine ⟨?_, by decide, by decide⟩
  intro fs hfs
  match fs with
  | f :: t =>
    obtain ⟨hmem, hle, hall⟩ :=
      maxByCtime_foldl_spec (fun best x => if best.2 < x.2 then x else best) rfl t f
    refine ⟨_, rfl, hmem, ?_⟩
    intro g hg
    rcases List.mem_cons.mp hg with h | h
    · subst h
      exact hle
    · exact hall g h

/-- C8 witness: the locator contract applied to a concrete two-file listing. -/
theorem claim_C8_newest_match_selected_witness :
    ∃ f, maxByCtime [("old.csv", (1 : ℚ)), ("new.csv", 7)] = some f ∧
      f ∈ [("old.csv", (1 : ℚ)), ("new.csv", 7)] ∧
      ∀ g ∈ [("old.csv", (1 : ℚ)), ("new.csv", 7)], g.2 ≤ f.2 :=
  claim_C8_newest_match_selected.1 _ (by simp)

/-- C9: `np.argpartition(amounts, -N)` is out of bounds as soon as the file
has fewer than `N` rows, so `get_largest_transactions` fails on any input
shorter than the requested count, and `generate_graphs` (which requests the
default 3) fails on every file with fewer than three rows. -/
theorem claim_C9_short_input_fails :
    (∀ (ams : List ℚ) (dcs : List String) (dts : List DateDMY) (N : ℕ),
        ams.length < N → get_largest_transactions ams dcs dts N = none) ∧
      ∀ rows : List (List String), rows.length < 3 → generate_graphs rows = none := by
  constructor
  · intro ams dcs dts N h
    exact glt_eq_none_of_short h
  · intro rows h
    unfold generate_graphs
    cases hp : parseTransactions rows
    · rfl
    case some pf =>
      obtain ⟨hd, ha, _, _⟩ := parseTransactions_lengths hp
      by_cases h0 : pf.dates.length = 0
      · simp [h0]
      · have hglt : get_largest_transactions pf.amounts pf.descriptions pf.dates 3 = none :=
          glt_eq_none_of_short (by omega)
        simp [h0, hglt]

/-- C9 witness: a one-amount call with the default count 3 fails, and the
pipeline fails on a well-formed one-row file. -/
theorem claim_C9_short_input_fails_witness :
    get_largest_transactions [5] ["a"] [⟨1, 1, 2020⟩] 3 = none ∧
      generate_graphs [["05-06-2020", "Test", "1,00", "100,00", "DKK", ""]] = none :=
  ⟨claim_C9_short_input_fails.1 [5] ["a"] [⟨1, 1, 2020⟩] 3 (by decide),
    claim_C9_short_input_fails.2 _ (by decide)⟩

theorem swapFront_perm (l : List Txn) (p : ℕ) : swapFront l p ~ l := by
  cases p with
  | zero => simp [swapFront]
  | succ q =>
    cases l with
    | nil => simp [swapFront]
    | cons a t =>
      cases hq : t[q]? with
      | none => simp [swapFront, hq]
      | some b =>
        simp only [swapFront, hq]
        obtain ⟨hlen, hget⟩ := List.getElem?_eq_some_iff.mp hq
        have hset : t.set q a = t.take q ++ a :: t.drop (q + 1) :=
          List.set_eq_take_cons_drop a hlen
        have ht : a :: t = a :: (t.take q ++ b :: t.drop (q + 1)) := by
          conv_lhs => rw [← List.take_append_drop q t, List.drop_eq_getElem_cons hlen, hget]
        rw [hset, ht]
        calc b :: (t.take q ++ a :: t.drop (q + 1))
            ~ b :: (a :: (t.take q ++ t.drop (q + 1))) :=
              List.Perm.cons b List.perm_middle
          _ ~ a :: (b :: (t.take q ++ t.drop (q + 1))) :=
              List.Perm.swap a b _
          _ ~ a :: (t.take q ++ b :: t.drop (q + 1)) :=
              List.Perm.cons a List.perm_middle.symm

theorem minPosFst_get :
    ∀ l : List Txn, l ≠ [] → ∃ x, l[minPosFst l]? = some x ∧ ∀ y ∈ l, x.1 ≤ y.1 := by
  intro l
  induction l with
  | nil => intro h; exact absurd rfl h
  | cons a t ih =>
    intro _
    cases t with
    | nil =>
      refine ⟨a, by simp [minPosFst], ?_⟩
      intro y hy
      rcases List.mem_singleton.mp hy with rfl
      exact le_refl _
    | cons b t2 =>
      obtain ⟨x, hx, hmin⟩ := ih (by simp)
      have hval : minPosFst (a :: b :: t2)
          = if x.1 < a.1 then minPosFst (b :: t2) + 1 else 0 := by
        have hunf : minPosFst (a :: b :: t2)
            = match (b :: t2)[minPosFst (b :: t2)]? with
              | some z => if z.1 < a.1 then minPosFst (b :: t2) + 1 else 0
              | none => 0 := rfl
        rw [hunf, hx]
      by_cases hc : x.1 < a.1
      · rw [hval, if_pos hc]
        refine ⟨x, by simpa using hx, ?_⟩
        intro y hy
        rcases List.mem_cons.mp hy with h | h
        · subst h
          exact le_of_lt hc
        · exact hmin y h
      · rw [hval, if_neg hc]
        refine ⟨a, by simp, ?_⟩
        intro y hy
        rcases List.mem_cons.mp hy with h | h
        · subst h
          exact le_refl _
        · exact le_trans (le_of_not_lt hc) (hmin y h)

theorem swapFront_head {l : List Txn} {p : ℕ} {x : Txn} (h : l[p]? = some x) :
    ∃ r, swapFront l p = x :: r := by
  cases p with
  | zero =>
    cases l with
    | nil => simp at h
    | cons a t =>
      simp only [List.getElem?_cons_zero, Option.some.injEq] at h
      subst h
      exact ⟨t, rfl⟩
  | succ q =>
    cases l with
    | nil => simp at h
    | cons a t =>
      simp only [List.getElem?_cons_succ] at h
      refine ⟨t.set q a, ?_⟩
      have hunf : swapFront (a :: t) (q + 1)
          = match t[q]? with
            | some b => b :: t.set q a
            | none => a :: t := rfl
      rw [hunf, h]

theorem selectMin_step (l : List Txn) (h : l ≠ []) :
    ∃ x r, swapFront l (minPosFst l) = x :: r ∧ (x :: r) ~ l ∧ ∀ y ∈ l, x.1 ≤ y.1 := by
  obtain ⟨x, hx, hmin⟩ := minPosFst_get l h
  obtain ⟨r, hr⟩ := swapFront_head hx
  exact ⟨x, r, hr, hr ▸ swapFront_perm l (minPosFst l), hmin⟩

theorem dumbselect_cons {k : ℕ} {a x : Txn} {t r : List Txn}
    (hsw : swapFront (a :: t) (minPosFst (a :: t)) = x :: r) :
    dumbselect (k + 1) (a :: t) = x :: dumbselect k r := by
  have hunf : dumbselect (k + 1) (a :: t)
      = match swapFront (a :: t) (minPosFst (a :: t)) with
        | [] => []
        | b :: r2 => b :: dumbselect k r2 := rfl
  rw [hunf, hsw]

theorem dumbselect_perm : ∀ (k : ℕ) (l : List Txn), dumbselect k l ~ l := by
  intro k
  induction k with
  | zero => intro l; exact List.Perm.refl l
  | succ k ih =>
    intro l
    cases l with
    | nil => exact List.Perm.refl _
    | cons a t =>
      obtain ⟨x, r, hsw, hperm, _⟩ := selectMin_step (a :: t) (by simp)
      rw [dumbselect_cons hsw]
      exact (List.Perm.cons x (ih r)).trans hperm

theorem dumbselect_cross :
    ∀ (j : ℕ) (l : List Txn) (k : ℕ), k ≤ j →
      ∀ x ∈ (dumbselect j l).take k, ∀ y ∈ (dumbselect j l).drop k, x.1 ≤ y.1 := by
  intro j
  induction j with
  | zero =>
    intro l k hk x hx y hy
    have : k = 0 := by omega
    subst this
    simp at hx
  | succ j ih =>
    intro l k hk x hx y hy
    cases l with
    | nil =>
      have : dumbselect (j + 1) ([] : List Txn) = [] := rfl
      rw [this] at hx
      simp at hx
    | cons a t =>
      obtain ⟨m, r, hsw, hperm, hmin⟩ := selectMin_step (a :: t) (by simp)
      rw [dumbselect_cons hsw] at hx hy
      cases k with
      | zero => simp at hx
      | succ k2 =>
        rw [List.take_succ_cons] at hx
        rw [List.drop_succ_cons] at hy
        rcases List.mem_cons.mp hx with h | h
        · subst h
          have hyr : y ∈ r :=
            (dumbselect_perm j r).mem_iff.mp (List.mem_of_mem_drop hy)
          exact hmin y (hperm.mem_iff.mp (List.mem_cons_of_mem _ hyr))
        · exact ih r k2 (by omega) x h y hy

theorem dumbselect_drop_perm (j k : ℕ) (l : List Txn) (hkj : k ≤ j) (hkl : k ≤ l.length) :
    ((dumbselect j l).drop k).map (fun t => t.1)
      ~ (sortQAsc (l.map (fun t => t.1))).drop k := by
  have hperm : dumbselect j l ~ l := dumbselect_perm j l
  have hAB : (dumbselect j l).take k ++ (dumbselect j l).drop k = dumbselect j l :=
    List.take_append_drop k (dumbselect j l)
  have hA : ((dumbselect j l).take k).length = k := by
    simp [hperm.length_eq, hkl]
  have hSAlen :
      ((((dumbselect j l).take k).map (fun t => t.1)).insertionSort
        (fun a b : ℚ => a ≤ b)).length = k := by
    rw [List.length_insertionSort, List.length_map, hA]
  have hperm3 :
      (((dumbselect j l).take k).map (fun t => t.1)).insertionSort (fun a b : ℚ => a ≤ b)
          ++ (((dumbselect j l).drop k).map (fun t => t.1)).insertionSort
            (fun a b : ℚ => a ≤ b)
        ~ l.map (fun t => t.1) := by
    calc _ ~ ((dumbselect j l).take k).map (fun t => t.1)
            ++ ((dumbselect j l).drop k).map (fun t => t.1) :=
          List.Perm.append (List.perm_insertionSort _ _) (List.perm_insertionSort _ _)
      _ = (dumbselect j l).map (fun t => t.1) := by rw [← List.map_append, hAB]
      _ ~ l.map (fun t => t.1) := hperm.map _
  have hsorted :
      ((((dumbselect j l).take k).map (fun t => t.1)).insertionSort (fun a b : ℚ => a ≤ b)
          ++ (((dumbselect j l).drop k).map (fun t => t.1)).insertionSort
            (fun a b : ℚ => a ≤ b)).Sorted (fun a b : ℚ => a ≤ b) := by
    refine List.pairwise_append.mpr
      ⟨List.sorted_insertionSort _ _, List.sorted_insertionSort _ _, ?_⟩
    intro x hx y hy
    have hx2 : x ∈ ((dumbselect j l).take k).map (fun t => t.1) :=
      (List.perm_insertionSort _ _).mem_iff.mp hx
    have hy2 : y ∈ ((dumbselect j l).drop k).map (fun t => t.1) :=
      (List.perm_insertionSort _ _).mem_iff.mp hy
    obtain ⟨u, hu, hux⟩ := List.mem_map.mp hx2
    obtain ⟨v, hv, hvy⟩ := List.mem_map.mp hy2
    rw [← hux, ← hvy]
    exact dumbselect_cross j l k hkj u hu v hv
  have heq :
      (((dumbselect j l).take k).map (fun t => t.1)).insertionSort (fun a b : ℚ => a ≤ b)
          ++ (((dumbselect j l).drop k).map (fun t => t.1)).insertionSort
            (fun a b : ℚ => a ≤ b)
        = sortQAsc (l.map (fun t => t.1)) :=
    List.eq_of_perm_of_sorted
      (hperm3.trans (List.perm_insertionSort _ _).symm) hsorted
      (List.sorted_insertionSort _ _)
  calc ((dumbselect j l).drop k).map (fun t => t.1)
      ~ (((dumbselect j l).drop k).map (fun t => t.1)).insertionSort
          (fun a b : ℚ => a ≤ b) := (List.perm_insertionSort _ _).symm
    _ = (sortQAsc (l.map (fun t => t.1))).drop k := by
        rw [← heq, List.drop_left' hSAlen]

theorem sortTxnsDesc_map_fst {B : List Txn} {target : List ℚ}
    (hperm : B.map (fun t => t.1) ~ target)
    (hsorted : target.Sorted (fun a b : ℚ => b ≤ a)) :
    (sortTxnsDesc B).map (fun t => t.1) = target := by
  refine List.eq_of_perm_of_sorted ?_ ?_ hsorted
  · exact ((List.perm_insertionSort (fun a b : Txn => b.1 ≤ a.1) B).map (fun t => t.1)).trans
      hperm
  · exact List.pairwise_map.mpr (List.sorted_insertionSort (fun a b : Txn => b.1 ≤ a.1) B)

theorem sortQDesc_eq_reverse (l : List ℚ) : sortQDesc l = (sortQAsc l).reverse := by
  have h1 : (sortQDesc l).Sorted (fun a b : ℚ => b ≤ a) :=
    List.sorted_insertionSort (fun a b : ℚ => b ≤ a) l
  have h2 : ((sortQAsc l).reverse).Sorted (fun a b : ℚ => b ≤ a) :=
    List.pairwise_reverse.mpr (List.sorted_insertionSort (fun a b : ℚ => a ≤ b) l)
  refine List.eq_of_perm_of_sorted ?_ h1 h2
  calc sortQDesc l ~ l := List.perm_insertionSort _ _
    _ ~ sortQAsc l := (List.perm_insertionSort _ _).symm
    _ ~ (sortQAsc l).reverse := (List.reverse_perm _).symm

theorem take_reverse_eq_reverse_drop (S : List ℚ) (k N : ℕ) (h : S.length = k + N) :
    S.reverse.take N = (S.drop k).reverse := by
  conv_lhs => rw [← List.take_append_drop k S]
  rw [List.reverse_append]
  exact List.take_left' (by simp; omega)

theorem glt_mem_zip {ams : List ℚ} {dcs : List String} {dts : List DateDMY} {N : ℕ}
    {lts : List Txn} (h : get_largest_transactions ams dcs dts N = some lts) :
    ∀ t ∈ lts, t ∈ zipTxns ams dcs dts := by
  intro t ht
  unfold get_largest_transactions at h
  by_cases hN : N = 0
  · rw [if_pos hN] at h
    by_cases hn : ams.length = 0
    · rw [if_pos hn] at h
      cases h
    · rw [if_neg hn] at h
      simp only [Option.some.injEq] at h
      subst h
      have ht2 : t ∈ dumbselect 1 (zipTxns ams dcs dts) :=
        (List.perm_insertionSort _ _).mem_iff.mp ht
      exact (dumbselect_perm 1 _).mem_iff.mp ht2
  · rw [if_neg hN] at h
    by_cases hn : ams.length < N
    · rw [if_pos hn] at h
      cases h
    · rw [if_neg hn] at h
      simp only [Option.some.injEq] at h
      subst h
      have ht2 : t ∈ (dumbselect (ams.length - N + 1) (zipTxns ams dcs dts)).drop
          (ams.length - N) :=
        (List.perm_insertionSort _ _).mem_iff.mp ht
      exact (dumbselect_perm _ _).mem_iff.mp (List.mem_of_mem_drop ht2)

theorem zipTxns_length {ams : List ℚ} {dcs : List String} {dts : List DateDMY}
    (h1 : ams.length ≤ dcs.length) (h2 : ams.length ≤ dts.length) :
    (zipTxns ams dcs dts).length = ams.length := by
  simp only [zipTxns, List.length_zip]
  omega

theorem zipTxns_map_fst {ams : List ℚ} {dcs : List String} {dts : List DateDMY}
    (h1 : ams.length ≤ dcs.length) (h2 : ams.length ≤ dts.length) :
    (zipTxns ams dcs dts).map (fun t => t.1) = ams := by
  have h : ams.length ≤ (dcs.zip dts).length := by
    simp only [List.length_zip]
    omega
  exact List.map_fst_zip ams (dcs.zip dts) h

theorem glt_topN {ams : List ℚ} {dcs : List String} {dts : List DateDMY} {N : ℕ}
    (hN : 1 ≤ N) (hlen : N ≤ ams.length) (h1 : ams.length ≤ dcs.length)
    (h2 : ams.length ≤ dts.length) :
    ∃ lts, get_largest_transactions ams dcs dts N = some lts ∧
      lts.map (fun t => t.1) = (sortQDesc ams).take N ∧
      ∀ t ∈ lts, t ∈ zipTxns ams dcs dts := by
  have hN0 : N ≠ 0 := by omega
  have hnN : ¬ (ams.length < N) := by omega
  have hglt : get_largest_transactions ams dcs dts N
      = some (sortTxnsDesc ((dumbselect (ams.length - N + 1) (zipTxns ams dcs dts)).drop
          (ams.length - N))) := by
    simp [get_largest_transactions, hN0, hnN]
  refine ⟨_, hglt, ?_, fun t ht => glt_mem_zip hglt t ht⟩
  apply sortTxnsDesc_map_fst
  · have hzl : (zipTxns ams dcs dts).length = ams.length := zipTxns_length h1 h2
    have hdp := dumbselect_drop_perm (ams.length - N + 1) (ams.length - N)
      (zipTxns ams dcs dts) (by omega) (by omega)
    rw [zipTxns_map_fst h1 h2] at hdp
    have hql : (sortQAsc ams).length = ams.length :=
      (List.perm_insertionSort (fun a b : ℚ => a ≤ b) ams).length_eq
    have hrev : (sortQDesc ams).take N
        = ((sortQAsc ams).drop (ams.length - N)).reverse := by
      rw [sortQDesc_eq_reverse]
      exact take_reverse_eq_reverse_drop (sortQAsc ams) (ams.length - N) N (by omega)
    rw [hrev]
    exact hdp.trans (List.reverse_perm _).symm
  · exact List.Pairwise.sublist (List.take_sublist _ _)
      (List.sorted_insertionSort (fun a b : ℚ => b ≤ a) ams)

theorem glt_zero {ams : List ℚ} {dcs : List String} {dts : List DateDMY}
    (hlen : 1 ≤ ams.length) (h1 : ams.length ≤ dcs.length) (h2 : ams.length ≤ dts.length) :
    ∃ lts, get_largest_transactions ams dcs dts 0 = some lts ∧
      lts.map (fun t => t.1) = sortQDesc ams ∧
      ∀ t ∈ lts, t ∈ zipTxns ams dcs dts := by
  have hn0 : ¬ (ams.length = 0) := by omega
  have hglt : get_largest_transactions ams dcs dts 0
      = some (sortTxnsDesc (dumbselect 1 (zipTxns ams dcs dts))) := by
    simp [get_largest_transactions, hn0]
  refine ⟨_, hglt, ?_, fun t ht => glt_mem_zip hglt t ht⟩
  apply sortTxnsDesc_map_fst
  · calc (dumbselect 1 (zipTxns ams dcs dts)).map (fun t => t.1)
        ~ (zipTxns ams dcs dts).map (fun t => t.1) := (dumbselect_perm 1 _).map _
      _ = ams := zipTxns_map_fst h1 h2
      _ ~ sortQDesc ams := (List.perm_insertionSort _ _).symm
  · exact List.sorted_insertionSort (fun a b : ℚ => b ≤ a) ams

/-- C1 amended: for every positive count `N ≤ len(amounts)` and parallel
sequences, `get_largest_transactions` succeeds and returns exactly the `N`
transactions with the largest signed amount values, in descending order of
amount (its amounts are the first `N` entries of the descending sort of all
amounts, and every returned triple is one of the input transactions); in
particular `[5, -3, 12, 7]` with `N = 2` gives amounts `[12, 7]` in that order
and `[-10, -20, -5]` with `N = 1` gives `[-5]`.  For `N = 0` (allowed by the
claim since `0 ≤ len`) the Python slice `indices[-0:]` is the whole array, so
the function instead returns all transactions in descending order. -/
theorem claim_C1_topN_descending :
    (∀ (ams : List ℚ) (dcs : List String) (dts : List DateDMY) (N : ℕ),
        1 ≤ N → N ≤ ams.length → ams.length ≤ dcs.length → ams.length ≤ dts.length →
        ∃ lts, get_largest_transactions ams dcs dts N = some lts ∧
          lts.map (fun t => t.1) = (sortQDesc ams).take N ∧
          ∀ t ∈ lts, t ∈ zipTxns ams dcs dts) ∧
      get_largest_transactions [5, -3, 12, 7] ["a", "b", "c", "d"]
          [⟨1, 1, 2020⟩, ⟨2, 1, 2020⟩, ⟨3, 1, 2020⟩, ⟨4, 1, 2020⟩] 2
        = some [(12, "c", ⟨3, 1, 2020⟩), (7, "d", ⟨4, 1, 2020⟩)] ∧
      get_largest_transactions [-10, -20, -5] ["a", "b", "c"]
          [⟨1, 1, 2020⟩, ⟨2, 1, 2020⟩, ⟨3, 1, 2020⟩] 1
        = some [(-5, "c", ⟨3, 1, 2020⟩)] ∧
      ∀ (ams : List ℚ) (dcs : List String) (dts : List DateDMY),
        1 ≤ ams.length → ams.length ≤ dcs.length → ams.length ≤ dts.length →
        ∃ lts, get_largest_transactions ams dcs dts 0 = some lts ∧
          lts.map (fun t => t.1) = sortQDesc ams ∧
          ∀ t ∈ lts, t ∈ zipTxns ams dcs dts :=
  ⟨fun _ _ _ _ hN hl h1 h2 => glt_topN hN hl h1 h2, by decide, by decide,
    fun _ _ _ hl h1 h2 => glt_zero hl h1 h2⟩

/-- C1 counterexample: with `N = 0` (a count allowed by the claim, since
`0 ≤ length`) the function returns all transactions instead of none, because
the Python slice `[-0:]` is the whole array. -/
theorem claim_C1_topN_descending_cex :
    get_largest_transactions [5] ["a"] [⟨1, 1, 2020⟩] 0
        = some [(5, "a", ⟨1, 1, 2020⟩)] ∧
      some [((5 : ℚ), "a", (⟨1, 1, 2020⟩ : DateDMY))] ≠ some ([] : List Txn) :=
  ⟨by decide, by decide⟩

/-- C1 witness: the general statement applied to the first concrete example. -/
theorem claim_C1_topN_descending_witness :
    ∃ lts, get_largest_transactions [5, -3, 12, 7] ["a", "b", "c", "d"]
        [⟨1, 1, 2020⟩, ⟨2, 1, 2020⟩, ⟨3, 1, 2020⟩, ⟨4, 1, 2020⟩] 2 = some lts ∧
      lts.map (fun t => t.1) = (sortQDesc [5, -3, 12, 7]).take 2 ∧
      ∀ t ∈ lts, t ∈ zipTxns [5, -3, 12, 7] ["a", "b", "c", "d"]
        [⟨1, 1, 2020⟩, ⟨2, 1, 2020⟩, ⟨3, 1, 2020⟩, ⟨4, 1, 2020⟩] :=
  claim_C1_topN_descending.1 [5, -3, 12, 7] ["a", "b", "c", "d"]
    [⟨1, 1, 2020⟩, ⟨2, 1, 2020⟩, ⟨3, 1, 2020⟩, ⟨4, 1, 2020⟩] 2
    (by decide) (by decide) (by decide) (by decide)

/-- C5 counterexample: for amounts `[5, 5, 3]` with `N = 2` both tied
transactions (original order "a" then "b") are selected, but the selection
pass of `np.argpartition` leaves their indices in the order `[2, 1, 0]`, so
the stable final sort returns the tied pair as "b" then "a" — the reverse of
their original relative order. -/
theorem claim_C5_stable_ties_cex :
    get_largest_transactions [5, 5, 3] ["a", "b", "c"]
        [⟨1, 1, 2020⟩, ⟨2, 1, 2020⟩, ⟨3, 1, 2020⟩] 2
      = some [(5, "b", ⟨2, 1, 2020⟩), (5, "a", ⟨1, 1, 2020⟩)] ∧
      (["b", "a"] : List String) ≠ ["a", "b"] :=
  ⟨by decide, by decide⟩

/-- C5 amended: the result of `get_largest_transactions` is always sorted by
amount in descending order (and the final sort step is stable), but entries
with equal amounts appear in the order the partition pass of
`np.argpartition` left the selected indices, which need not be their original
relative order: for amounts `[5, 5, 3]` with `N = 2` the two amount-5
transactions come back in reversed original order. -/
theorem claim_C5_ties_selection_order :
    (∀ (ams : List ℚ) (dcs : List String) (dts : List DateDMY) (N : ℕ) (lts : List Txn),
        get_largest_transactions ams dcs dts N = some lts →
        lts.Sorted (fun a b : Txn => b.1 ≤ a.1)) ∧
      (get_largest_transactions [5, 5, 3] ["a", "b", "c"]
          [⟨1, 1, 2020⟩, ⟨2, 1, 2020⟩, ⟨3, 1, 2020⟩] 2).map
          (List.map (fun t : Txn => t.2.1))
        = some ["b", "a"] := by
  constructor
  · intro ams dcs dts N lts h
    unfold get_largest_transactions at h
    by_cases hN : N = 0
    · rw [if_pos hN] at h
      by_cases hn : ams.length = 0
      · rw [if_pos hn] at h
        cases h
      · rw [if_neg hn] at h
        simp only [Option.some.injEq] at h
        subst h
        exact List.sorted_insertionSort _ _
    · rw [if_neg hN] at h
      by_cases hn : ams.length < N
      · rw [if_pos hn] at h
        cases h
      · rw [if_neg hn] at h
        simp only [Option.some.injEq] at h
        subst h
        exact List.sorted_insertionSort _ _
  · decide

/-- C5 witness: the sortedness statement applied to the concrete tied input. -/
theorem claim_C5_ties_selection_order_witness :
    ([(5, "b", (⟨2, 1, 2020⟩ : DateDMY)), (5, "a", ⟨1, 1, 2020⟩)] : List Txn).Sorted
      (fun a b : Txn => b.1 ≤ a.1) :=
  claim_C5_ties_selection_order.1 [5, 5, 3] ["a", "b", "c"]
    [⟨1, 1, 2020⟩, ⟨2, 1, 2020⟩, ⟨3, 1, 2020⟩] 2
    [(5, "b", ⟨2, 1, 2020⟩), (5, "a", ⟨1, 1, 2020⟩)] (by decide)

theorem zipTxns_getElem {ams : List ℚ} {dcs : List String} {dts : List DateDMY} {t : Txn} :
    t ∈ zipTxns ams dcs dts →
      ∃ i : ℕ, ams[i]? = some t.1 ∧ dcs[i]? = some t.2.1 ∧ dts[i]? = some t.2.2 := by
  induction ams generalizing dcs dts with
  | nil => intro h; simp [zipTxns] at h
  | cons a as ih =>
    intro h
    cases dcs with
    | nil => simp [zipTxns] at h
    | cons d ds =>
      cases dts with
      | nil => simp [zipTxns] at h
      | cons e es =>
        have hz : zipTxns (a :: as) (d :: ds) (e :: es)
            = (a, d, e) :: zipTxns as ds es := rfl
        rw [hz] at h
        rcases List.mem_cons.mp h with h | h
        · subst h
          exact ⟨0, by simp, by simp, by simp⟩
        · obtain ⟨i, h1, h2, h3⟩ := ih h
          exact ⟨i + 1, by simpa using h1, by simpa using h2, by simpa using h3⟩

theorem pyIndex_of_nodup :
    ∀ {ams : List ℚ}, ams.Nodup → ∀ {i : ℕ} {v : ℚ}, ams[i]? = some v →
      pyIndex ams v = some i := by
  intro ams
  induction ams with
  | nil => intro _ i v h; simp at h
  | cons a t ih =>
    intro hnd i v h
    cases i with
    | zero =>
      simp only [List.getElem?_cons_zero, Option.some.injEq] at h
      subst h
      simp [pyIndex]
    | succ j =>
      simp only [List.getElem?_cons_succ] at h
      have hvt : v ∈ t := List.getElem?_mem h
      have hav : ¬ (a = v) := by
        intro he
        subst he
        exact (List.nodup_cons.mp hnd).1 hvt
      have hrec := ih (List.nodup_cons.mp hnd).2 h
      simp [pyIndex, hav, hrec]

/-- C10: when all amounts are pairwise distinct, the `amounts.index(value)`
lookup in the annotation loop recovers, for every selected transaction, the
unique original row index holding that transaction, so each annotation is
placed at the `(date, balance)` point of the row the transaction came from
(its date is the transaction's own date and its balance is that row's
balance). -/
theorem claim_C10_lookup_recovers_row :
    (∀ (ams : List ℚ) (dcs : List String) (dts : List DateDMY) (N : ℕ) (lts : List Txn),
        ams.Nodup → get_largest_transactions ams dcs dts N = some lts →
        ∀ t ∈ lts, ∃ i : ℕ, pyIndex ams t.1 = some i ∧ ams[i]? = some t.1 ∧
          dcs[i]? = some t.2.1 ∧ dts[i]? = some t.2.2) ∧
      ∀ (pf : ParsedFile) (N : ℕ) (lts : List Txn),
        pf.amounts.Nodup → pf.balances.length = pf.amounts.length →
        get_largest_transactions pf.amounts pf.descriptions pf.dates N = some lts →
        ∃ ans, annotPoints pf lts = some ans ∧ ans.length = lts.length ∧
          ∀ (j : ℕ) (a : AnnotPoint), ans[j]? = some a →
            ∃ t, lts[j]? = some t ∧ a.description = t.2.1 ∧ a.date = t.2.2 ∧
              ∃ i : ℕ, pyIndex pf.amounts t.1 = some i ∧ pf.dates[i]? = some a.date ∧
                pf.balances[i]? = some a.balance := by
  constructor
  · intro ams dcs dts N lts hnd h t ht
    obtain ⟨i, h1, h2, h3⟩ := zipTxns_getElem (glt_mem_zip h t ht)
    exact ⟨i, pyIndex_of_nodup hnd h1, h1, h2, h3⟩
  · intro pf N lts hnd hbl h
    have hmem : ∀ t ∈ lts, t ∈ zipTxns pf.amounts pf.descriptions pf.dates :=
      glt_mem_zip h
    have hval : ∀ t ∈ lts, ∃ i : ℕ, ∃ b : ℚ, pyIndex pf.amounts t.1 = some i ∧
        pf.dates[i]? = some t.2.2 ∧ pf.balances[i]? = some b := by
      intro t ht
      obtain ⟨i, h1, h2, h3⟩ := zipTxns_getElem (hmem t ht)
      have hi : i < pf.amounts.length := (List.getElem?_eq_some_iff.mp h1).1
      have hib : i < pf.balances.length := by omega
      exact ⟨i, pf.balances[i], pyIndex_of_nodup hnd h1, h3,
        List.getElem?_eq_some_iff.mpr ⟨hib, rfl⟩⟩
    have hsome : ∀ t ∈ lts,
        ((fun t : Txn => match pyIndex pf.amounts t.1 with
          | some i =>
            match pf.dates[i]?, pf.balances[i]? with
            | some d, some b => some (⟨t.2.1, d, b⟩ : AnnotPoint)
            | _, _ => none
          | none => none) t).isSome := by
      intro t ht
      obtain ⟨i, b, hpi, hd, hb⟩ := hval t ht
      simp [hpi, hd, hb]
    obtain ⟨ans, hans⟩ := optMap_isSome _ hsome
    refine ⟨ans, hans, optMap_length _ hans, ?_⟩
    intro j a hja
    have hget := optMap_get _ hans j
    rw [hja] at hget
    cases hlj : lts[j]? with
    | none =>
      rw [hlj] at hget
      simp at hget
    | some t =>
      rw [hlj] at hget
      have htl : t ∈ lts := List.getElem?_mem hlj
      obtain ⟨i, b, hpi, hd, hb⟩ := hval t htl
      have hgt : (match pyIndex pf.amounts t.1 with
          | some i =>
            match pf.dates[i]?, pf.balances[i]? with
            | some d, some b => some (⟨t.2.1, d, b⟩ : AnnotPoint)
            | _, _ => none
          | none => none) = some (⟨t.2.1, t.2.2, b⟩ : AnnotPoint) := by
        simp [hpi, hd, hb]
      have hget2 : some a = (match pyIndex pf.amounts t.1 with
          | some i =>
            match pf.dates[i]?, pf.balances[i]? with
            | some d, some b => some (⟨t.2.1, d, b⟩ : AnnotPoint)
            | _, _ => none
          | none => none) := hget
      rw [hgt] at hget2
      simp only [Option.some.injEq] at hget2
      subst hget2
      exact ⟨t, rfl, rfl, rfl, i, hpi, hd, hb⟩

/-- C10 witness: the index lookup applied to a concrete two-row input with
distinct amounts. -/
theorem claim_C10_lookup_recovers_row_witness :
    ∃ i : ℕ, pyIndex [5, 3] (5 : ℚ) = some i ∧ ([5, 3] : List ℚ)[i]? = some (5 : ℚ) ∧
      (["a", "b"] : List String)[i]? = some "a" ∧
      ([⟨1, 1, 2020⟩, ⟨2, 1, 2020⟩] : List DateDMY)[i]? = some ⟨1, 1, 2020⟩ :=
  claim_C10_lookup_recovers_row.1 [5, 3] ["a", "b"] [⟨1, 1, 2020⟩, ⟨2, 1, 2020⟩] 2
    [(5, "a", ⟨1, 1, 2020⟩), (3, "b", ⟨2, 1, 2020⟩)] (by decide) (by decide)
    (5, "a", ⟨1, 1, 2020⟩) (by decide)

theorem takeWhile_append_not (p : Char → Bool) :
    ∀ (xs : List Char) (y : Char) (ys : List Char), (∀ c ∈ xs, p c = true) → p y = false →
      (xs ++ y :: ys).takeWhile p = xs ∧ (xs ++ y :: ys).dropWhile p = y :: ys := by
  intro xs y ys hall hy
  induction xs with
  | nil => simp [List.takeWhile_cons, List.dropWhile_cons, hy]
  | cons c t ih =>
    have hc : p c = true := hall c (List.mem_cons_self c t)
    have ht := ih (fun x hx => hall x (List.mem_cons_of_mem c hx))
    simp [List.takeWhile_cons, List.dropWhile_cons, hc, ht]

theorem map_swapComma_eq_self {l : List Char} (h : ∀ c ∈ l, ¬ (c = ',')) :
    l.map (fun c => if c = ',' then '.' else c) = l := by
  induction l with
  | nil => rfl
  | cons c t ih =>
    have hc : ¬ (c = ',') := h c (List.mem_cons_self c t)
    have ht := ih (fun x hx => h x (List.mem_cons_of_mem c hx))
    simp [hc, ht]

theorem filter_digits_eq_self {l : List Char} (h : ∀ c ∈ l, c.isDigit = true) :
    l.filter (fun c => c ≠ '.') = l := by
  apply List.filter_eq_self.mpr
  intro c hc
  have hd := h c hc
  have hne : ¬ (c = '.') := by
    intro he
    subst he
    exact absurd hd (by decide)
  simp [hne]

theorem normalizeNumber_comma {a b : List Char}
    (ha : ∀ c ∈ a, c.isDigit = true ∨ c = '.') (hb : ∀ c ∈ b, c.isDigit = true) :
    (normalizeNumber ⟨a ++ ',' :: b⟩).data
      = a.filter (fun c => c ≠ '.') ++ '.' :: b := by
  have hsplit : (a ++ ',' :: b).filter (fun c => c ≠ '.')
      = a.filter (fun c => c ≠ '.') ++ ',' :: b := by
    rw [List.filter_append]
    have hkeep : (',' :: b).filter (fun c => c ≠ '.') = ',' :: b := by
      apply List.filter_eq_self.mpr
      intro c hc
      rcases List.mem_cons.mp hc with h | h
      · subst h
        decide
      · have hd := hb c h
        have hne : ¬ (c = '.') := by
          intro he
          subst he
          exact absurd hd (by decide)
        simp [hne]
    rw [hkeep]
  have hnc : ∀ c ∈ a.filter (fun c => c ≠ '.'), ¬ (c = ',') := by
    intro c hc
    have hmem := List.mem_of_mem_filter hc
    have hne := List.of_mem_filter hc
    rcases ha c hmem with hd | hd
    · intro he
      subst he
      exact absurd hd (by decide)
    · subst hd
      simp at hne
  have hncb : ∀ c ∈ b, ¬ (c = ',') := by
    intro c hc he
    subst he
    exact absurd (hb _ hc) (by decide)
  show ((a ++ ',' :: b).filter (fun c => c ≠ '.')).map (fun c => if c = ',' then '.' else c)
      = a.filter (fun c => c ≠ '.') ++ '.' :: b
  rw [hsplit, List.map_append, map_swapComma_eq_self hnc, List.map_cons]
  rw [if_pos rfl, map_swapComma_eq_self hncb]

theorem pyFloat_digits_dot_digits {a b : List Char} (ha : a ≠ [])
    (hada : ∀ c ∈ a, c.isDigit = true) (hb : ∀ c ∈ b, c.isDigit = true) :
    pyFloat ⟨a ++ '.' :: b⟩
      = some (mkRat (digitsToNat a * 10 ^ b.length + digitsToNat b) (10 ^ b.length)) := by
  obtain ⟨c, rest, rfl⟩ : ∃ c rest, a = c :: rest := by
    cases a with
    | nil => exact absurd rfl ha
    | cons c r => exact ⟨c, r, rfl⟩
  have hcd : c.isDigit = true := hada c (List.mem_cons_self c rest)
  have hcm : ¬ (c = '-') := by
    intro h
    subst h
    exact absurd hcd (by decide)
  have hcp : ¬ (c = '+') := by
    intro h
    subst h
    exact absurd hcd (by decide)
  have hTD := takeWhile_append_not (fun x => decide (x ≠ '.')) (c :: rest) '.' b
    (fun x hx => by
      have hd := hada x hx
      simp only [decide_eq_true_eq]
      intro he
      subst he
      exact absurd hd (by decide))
    (by simp)
  have hall : (c :: rest).all (fun c => c.isDigit) = true := List.all_eq_true.mpr hada
  have hballs : b.all (fun c => c.isDigit) = true := List.all_eq_true.mpr hb
  have hif : (if c = '-' ∨ c = '+' then rest ++ '.' :: b else c :: (rest ++ '.' :: b))
      = c :: (rest ++ '.' :: b) := by
    rw [if_neg]
    rintro (h | h)
    · exact hcm h
    · exact hcp h
  have hneg : (decide (c = '-')) = false := by simp [hcm]
  show pyFloat ⟨(c :: rest) ++ '.' :: b⟩ = _
  unfold pyFloat
  simp only [List.cons_append] at hTD
  simp only [List.cons_append, hif, hTD.1, hTD.2, hall, hballs, hneg]
  simp

/-- C6: the numeric-field parser first deletes every dot (thousands
separator), then turns the comma into a dot, then parses the result as a
decimal number: for any digits-and-dots integer part and digit fraction the
value is `intdigits * 10^k + fracdigits` over `10^k`; in particular
`"1.234,56"` normalizes to `"1234.56"` and parses to `1234.56`, and `"0,50"`
parses to `0.5`. -/
theorem claim_C6_normalization_parse :
    (∀ a b : List Char,
        (∀ c ∈ a, c.isDigit = true ∨ c = '.') → (∀ c ∈ b, c.isDigit = true) →
        a.filter (fun c => c ≠ '.') ≠ [] →
        parseNumberField ⟨a ++ ',' :: b⟩
          = some (mkRat (digitsToNat (a.filter (fun c => c ≠ '.')) * 10 ^ b.length
              + digitsToNat b) (10 ^ b.length))) ∧
      normalizeNumber "1.234,56" = "1234.56" ∧
      parseNumberField "1.234,56" = some 1234.56 ∧
      parseNumberField "0,50" = some 0.5 := by
  refine ⟨?_, by decide, ?_, ?_⟩
  · intro a b ha hb hne
    have hfd : ∀ c ∈ a.filter (fun c => c ≠ '.'), c.isDigit = true := by
      intro c hc
      have hmem := List.mem_of_mem_filter hc
      have hnd := List.of_mem_filter hc
      rcases ha c hmem with hd | hd
      · exact hd
      · subst hd
        simp at hnd
    have hn := normalizeNumber_comma ha hb
    unfold parseNumberField
    have : pyFloat (normalizeNumber ⟨a ++ ',' :: b⟩)
        = pyFloat ⟨a.filter (fun c => c ≠ '.') ++ '.' :: b⟩ := by
      congr 1
      cases hs : normalizeNumber ⟨a ++ ',' :: b⟩
      simp only [hs] at hn
      simp [hn]
    rw [this, pyFloat_digits_dot_digits hne hfd hb]
  · have h1 : parseNumberField "1.234,56" = some (mkRat 123456 100) := by decide
    rw [h1, Rat.mkRat_eq_div]
    norm_num
  · have h2 : parseNumberField "0,50" = some (mkRat 50 100) := by decide
    rw [h2, Rat.mkRat_eq_div]
    norm_num

/-- C6 witness: the general normalization statement applied to the danish
format string "1.234,56" split at its comma. -/
theorem claim_C6_normalization_parse_witness :
    parseNumberField ⟨['1', '.', '2', '3', '4'] ++ ',' :: ['5', '6']⟩
      = some (mkRat (digitsToNat ((['1', '.', '2', '3', '4'] : List Char).filter
          (fun c => c ≠ '.')) * 10 ^ (['5', '6'] : List Char).length
        + digitsToNat ['5', '6']) (10 ^ (['5', '6'] : List Char).length)) :=
  claim_C6_normalization_parse.1 ['1', '.', '2', '3', '4'] ['5', '6']
    (by decide) (by decide) (by decide)

theorem slope_consecutive (t : ℚ) : polyfitSlope [t, t - 1, t - 2] [100, 99, 98] = 1 := by
  have key : ∀ x y : ℚ, x = 6 → y = 6 → x / y = 1 := by
    intro x y hx hy
    rw [hx, hy]
    norm_num
  unfold polyfitSlope
  apply key
  · simp [sumQ]
    ring
  · simp [sumQ]
    ring

theorem exRows3_parse :
    parseTransactions exRows3
      = some ⟨[⟨5, 6, 2020⟩, ⟨4, 6, 2020⟩, ⟨3, 6, 2020⟩], [1, 1, 1], [100, 99, 98],
          ["Test", "Test", "Test"]⟩ := by
  decide

theorem exRows3_slope :
    (generate_graphs exRows3).map GraphOutput.trendSlope = some 1 := by
  have hglt : get_largest_transactions [1, 1, 1] ["Test", "Test", "Test"]
      [⟨5, 6, 2020⟩, ⟨4, 6, 2020⟩, ⟨3, 6, 2020⟩] 3
      = some [(1, "Test", ⟨5, 6, 2020⟩), (1, "Test", ⟨4, 6, 2020⟩),
          (1, "Test", ⟨3, 6, 2020⟩)] := by
    decide
  have hann : annotPoints
      ⟨[⟨5, 6, 2020⟩, ⟨4, 6, 2020⟩, ⟨3, 6, 2020⟩], [1, 1, 1], [100, 99, 98],
        ["Test", "Test", "Test"]⟩
      [(1, "Test", ⟨5, 6, 2020⟩), (1, "Test", ⟨4, 6, 2020⟩), (1, "Test", ⟨3, 6, 2020⟩)]
      = some [⟨"Test", ⟨5, 6, 2020⟩, 100⟩, ⟨"Test", ⟨5, 6, 2020⟩, 100⟩,
          ⟨"Test", ⟨5, 6, 2020⟩, 100⟩] := by
    decide
  unfold generate_graphs
  rw [exRows3_parse]
  simp only [List.length_cons, List.length_nil, List.map_cons, List.map_nil, hglt, hann]
  rw [if_neg (by norm_num)]
  simp only [Option.map_some', Option.some.injEq]
  have h5 : toOrdinal ⟨5, 6, 2020⟩ = 18418 := by decide
  have h4 : toOrdinal ⟨4, 6, 2020⟩ = 18417 := by decide
  have h3 : toOrdinal ⟨3, 6, 2020⟩ = 18416 := by decide
  rw [h5, h4, h3]
  have e5 : ((18418 : ℤ) : ℚ) = 18418 := by norm_num
  have e4 : ((18417 : ℤ) : ℚ) = 18418 - 1 := by norm_num
  have e3 : ((18416 : ℤ) : ℚ) = 18418 - 2 := by norm_num
  rw [e5, e4, e3]
  exact slope_consecutive 18418

/-- C4 counterexample: on the header-comment example file (newest first,
balances 100, 99, 98 over three consecutive days) the first-degree
least-squares fit computed by the program has slope exactly `+1`, which is
not negative. -/
theorem claim_C4_negative_slope_cex :
    (generate_graphs exRows3).map GraphOutput.trendSlope = some 1 ∧ ¬ ((1 : ℚ) < 0) :=
  ⟨exRows3_slope, by norm_num⟩

/-- C4 amended: for a 3-row newest-first file with balances `[100, 99, 98]`
over three consecutive days, the first-degree least-squares fit of balance
against date-ordinal has slope `+1` — positive, because the balance decreases
going back in time, i.e. increases with the date. -/
theorem claim_C4_positive_slope :
    (∀ t : ℚ, polyfitSlope [t, t - 1, t - 2] [100, 99, 98] = 1) ∧
      (generate_graphs exRows3).map GraphOutput.trendSlope = some 1 ∧ (0 : ℚ) < 1 :=
  ⟨slope_consecutive, exRows3_slope, by norm_num⟩

end FinGraphs
